import Mathlib

/-!
Shallow embedding of the order-book state engine of `src/ws_client.rs`
(lighter-rs). `rust_decimal::Decimal` is modelled as the exact rationals;
`BTreeMap<OrderedDecimal, Decimal>` is modelled as an association list kept
strictly sorted ascending by key, with the map operations used by the code.
A Rust method taking `&mut self` and returning `Result<()>` is embedded as a
function returning the final state paired with an `Except` value.
-/

namespace Lighter

/-- Model of `rust_decimal::Decimal`: exact decimal arithmetic. -/
abbrev Decimal := Rat

/-- Numeric value of a list of decimal digit characters. -/
def digitsVal (l : List Char) : Nat :=
  l.foldl (fun a c => 10 * a + (c.toNat - 48)) 0

/-- Parse an unsigned decimal: digits, optionally a point and more digits.
Modelled from the library behavior of `Decimal::from_str`: at least one
digit must be present and nothing but digits and at most one point. -/
def parseUnsigned (cs : List Char) : Option Rat :=
  let ip := cs.takeWhile Char.isDigit
  let rest := cs.dropWhile Char.isDigit
  match rest with
  | [] => if ip.isEmpty then none else some (digitsVal ip : Rat)
  | '.' :: fp =>
    if fp.all Char.isDigit ∧ ¬(ip.isEmpty ∧ fp.isEmpty) then
      some ((digitsVal ip : Rat) + (digitsVal fp : Rat) / ((10 : Rat) ^ fp.length))
    else none
  | _ => none

/-- Model of `Decimal::from_str`: optional sign, then an unsigned decimal. -/
def parseDecimal (s : String) : Option Decimal :=
  match s.toList with
  | '-' :: cs => (parseUnsigned cs).map Neg.neg
  | '+' :: cs => parseUnsigned cs
  | cs => parseUnsigned cs

/-- One side of the book: `BTreeMap<OrderedDecimal, Decimal>` as an
association list (price, size), kept strictly sorted ascending by price. -/
abbrev LevelMap := List (Decimal × Decimal)

/-- `BTreeMap::insert`: insert or replace the value at a key, keeping the
list sorted. -/
def btree_insert (k v : Decimal) : LevelMap → LevelMap
  | [] => [(k, v)]
  | (k1, v1) :: t =>
    if k < k1 then (k, v) :: (k1, v1) :: t
    else if k = k1 then (k, v) :: t
    else (k1, v1) :: btree_insert k v t

/-- `BTreeMap::remove`: drop every entry at the key (on the sorted maps the
code maintains there is at most one). -/
def btree_remove (k : Decimal) (m : LevelMap) : LevelMap :=
  m.filter (fun e => decide (e.1 ≠ k))

/-- `BTreeMap::get`: value at a key, if present. -/
def btree_get (k : Decimal) : LevelMap → Option Decimal
  | [] => none
  | (k1, v1) :: t => if k = k1 then some v1 else btree_get k t

/-- `PriceLevel`: a price and a size, both as strings on the wire. -/
structure PriceLevel where
  price : String
  size : String
deriving Repr, DecidableEq

/-- `ManagedOrderBook`: two sorted level stores plus sequence metadata. -/
structure ManagedOrderBook where
  asks : LevelMap
  bids : LevelMap
  offset : Nat
  nonce : Nat
  timestamp : Nat
  market_id : String
deriving Repr, DecidableEq

/-- `ManagedOrderBook::new`. -/
def ManagedOrderBook.new (market_id : String) : ManagedOrderBook :=
  ⟨[], [], 0, 0, 0, market_id⟩

/-- `OrderBookSnapshot` message. -/
structure OrderBookSnapshot where
  asks : List PriceLevel
  bids : List PriceLevel
  offset : Nat
  nonce : Nat
  code : Int
deriving Repr, DecidableEq

/-- `OrderBookUpdate` message (same shape, interpreted as a diff). -/
structure OrderBookUpdate where
  asks : List PriceLevel
  bids : List PriceLevel
  offset : Nat
  nonce : Nat
  code : Int
deriving Repr, DecidableEq

/-- The variants of `LighterError` this module produces. -/
inductive LighterError where
  | InvalidResponse (msg : String)
  | InvalidConfiguration (msg : String)
  | ValidationError (msg : String)
deriving Repr, DecidableEq

/-- Whether an outcome is the parse-failure error (`InvalidResponse`). -/
def is_parse_error : Except LighterError Unit → Bool
  | .error (.InvalidResponse _) => true
  | _ => false

/-- A level whose price and size strings both parse. -/
def ParsesLevel (l : PriceLevel) : Prop :=
  (parseDecimal l.price).isSome = true ∧ (parseDecimal l.size).isSome = true

instance (l : PriceLevel) : Decidable (ParsesLevel l) := by
  unfold ParsesLevel; infer_instance

/-- The snapshot loop body over one side: parse each level in order, insert
it when its size is strictly positive, stop at the first parse failure
(`apply_snapshot`, the two `for` loops). -/
def snap_apply_levels (side : String) (levels : List PriceLevel) (m : LevelMap) :
    LevelMap × Option LighterError :=
  match levels with
  | [] => (m, none)
  | l :: rest =>
    match parseDecimal l.price with
    | none => (m, some (.InvalidResponse ("Invalid " ++ side ++ " price: " ++ l.price)))
    | some price =>
      match parseDecimal l.size with
      | none => (m, some (.InvalidResponse ("Invalid " ++ side ++ " size: " ++ l.size)))
      | some size =>
        snap_apply_levels side rest (if 0 < size then btree_insert price size m else m)

/-- `ManagedOrderBook::apply_snapshot`: clear both sides, repopulate the ask
side then the bid side, then set `offset` and `nonce`; a parse failure
returns early with the error. -/
def apply_snapshot (b : ManagedOrderBook) (s : OrderBookSnapshot) :
    ManagedOrderBook × Except LighterError Unit :=
  match snap_apply_levels "ask" s.asks [] with
  | (asks1, some e) => ({ b with asks := asks1, bids := [] }, .error e)
  | (asks1, none) =>
    match snap_apply_levels "bid" s.bids [] with
    | (bids1, some e) => ({ b with asks := asks1, bids := bids1 }, .error e)
    | (bids1, none) =>
      ({ b with asks := asks1, bids := bids1, offset := s.offset, nonce := s.nonce },
        .ok ())

/-- The update loop body over one side: parse each level in order, remove
the price when the size is exactly zero and insert otherwise, stopping at
the first parse failure (`apply_update`, the two `for` loops). -/
def upd_apply_levels (side : String) (levels : List PriceLevel) (m : LevelMap) :
    LevelMap × Option LighterError :=
  match levels with
  | [] => (m, none)
  | l :: rest =>
    match parseDecimal l.price with
    | none => (m, some (.InvalidResponse ("Invalid " ++ side ++ " price: " ++ l.price)))
    | some price =>
      match parseDecimal l.size with
      | none => (m, some (.InvalidResponse ("Invalid " ++ side ++ " size: " ++ l.size)))
      | some size =>
        upd_apply_levels side rest
          (if size = 0 then btree_remove price m else btree_insert price size m)

/-- `ManagedOrderBook::apply_update`: skip stale updates, otherwise merge
the ask diff then the bid diff and advance `offset` and `nonce`. -/
def apply_update (b : ManagedOrderBook) (u : OrderBookUpdate) :
    ManagedOrderBook × Except LighterError Unit :=
  if u.offset ≤ b.offset ∧ 0 < b.offset then (b, .ok ())
  else
    match upd_apply_levels "ask" u.asks b.asks with
    | (asks1, some e) => ({ b with asks := asks1 }, .error e)
    | (asks1, none) =>
      match upd_apply_levels "bid" u.bids b.bids with
      | (bids1, some e) => ({ b with asks := asks1, bids := bids1 }, .error e)
      | (bids1, none) =>
        ({ b with asks := asks1, bids := bids1, offset := u.offset, nonce := u.nonce },
          .ok ())

/-- The `update/order_book` handler step of `WsClient::run`: the stored
book's `timestamp` is set from the message envelope, then `apply_update`
is called with the message payload. -/
def handle_update_message (ts : Nat) (u : OrderBookUpdate) (b : ManagedOrderBook) :
    ManagedOrderBook × Except LighterError Unit :=
  apply_update { b with timestamp := ts } u

/-- `best_ask`: first entry of the ask store (numeric view; the Rust method
renders the pair to strings). -/
def best_ask (b : ManagedOrderBook) : Option (Decimal × Decimal) :=
  b.asks.head?

/-- `best_bid`: last entry of the bid store. -/
def best_bid (b : ManagedOrderBook) : Option (Decimal × Decimal) :=
  b.bids.getLast?

/-- `spread`: first ask price minus last bid price, when both exist. -/
def spread (b : ManagedOrderBook) : Option Decimal :=
  match b.asks.head?, b.bids.getLast? with
  | some a, some c => some (a.1 - c.1)
  | _, _ => none

/-- `all_asks`: the ask store in ascending order (numeric view). -/
def all_asks (b : ManagedOrderBook) : LevelMap :=
  b.asks

/-- `all_bids`: the bid store in reverse (descending) order. -/
def all_bids (b : ManagedOrderBook) : LevelMap :=
  b.bids.reverse

/-- `total_ask_volume`: sum of the values of the ask store. -/
def total_ask_volume (b : ManagedOrderBook) : Decimal :=
  (b.asks.map Prod.snd).sum

/-- `total_bid_volume`: sum of the values of the bid store. -/
def total_bid_volume (b : ManagedOrderBook) : Decimal :=
  (b.bids.map Prod.snd).sum

/-- A level store is well formed when its prices are strictly ascending
(which is what `BTreeMap` maintains, and gives uniqueness). -/
def SortedMap (m : LevelMap) : Prop :=
  m.Pairwise (fun e1 e2 => e1.1 < e2.1)

/-- Both stores of a book are well formed. -/
def SortedBook (b : ManagedOrderBook) : Prop :=
  SortedMap b.asks ∧ SortedMap b.bids

/-- Spec-side description of the delta merge: the size carried by the last
entry of a delta list whose price parses to `q` (later entries override
earlier ones). -/
def last_delta_size_at (q : Decimal) : List PriceLevel → Option Decimal
  | [] => none
  | l :: t =>
    match last_delta_size_at q t with
    | some s => some s
    | none =>
      match parseDecimal l.price, parseDecimal l.size with
      | some p, some s => if p = q then some s else none
      | _, _ => none

/-- Spec-side description of snapshot population: the size carried by the
last entry at price `q` whose size is strictly positive (non-positive
snapshot entries are skipped entirely). -/
def last_snapshot_size_at (q : Decimal) : List PriceLevel → Option Decimal
  | [] => none
  | l :: t =>
    match last_snapshot_size_at q t with
    | some s => some s
    | none =>
      match parseDecimal l.price, parseDecimal l.size with
      | some p, some s => if p = q ∧ 0 < s then some s else none
      | _, _ => none

/-- Spec-side description of the delta merge restricted to entries that
parse: fold the delete/upsert operations left to right, stopping at the
first entry that fails to parse. -/
def apply_parsed_delta_levels : List PriceLevel → LevelMap → LevelMap
  | [], m => m
  | l :: t, m =>
    match parseDecimal l.price, parseDecimal l.size with
    | some p, some s =>
      apply_parsed_delta_levels t (if s = 0 then btree_remove p m else btree_insert p s m)
    | _, _ => m

/-! ### Lemmas about the level-store operations -/

theorem btree_get_cons (q k1 v1 : Decimal) (t : LevelMap) :
    btree_get q ((k1, v1) :: t) = if q = k1 then some v1 else btree_get q t := rfl

theorem btree_get_insert (q k v : Decimal) (m : LevelMap) :
    btree_get q (btree_insert k v m) = if q = k then some v else btree_get q m := by
  induction m with
  | nil =>
    simp [btree_insert, btree_get]
  | cons e t ih =>
    obtain ⟨k1, v1⟩ := e
    rcases lt_trichotomy k k1 with h1 | h1 | h1
    · rw [btree_insert, if_pos h1, btree_get_cons, btree_get_cons]
    · subst h1
      rw [btree_insert, if_neg (lt_irrefl k), if_pos rfl, btree_get_cons, btree_get_cons]
      by_cases hq : q = k <;> simp [hq]
    · have hn1 : ¬ k < k1 := not_lt_of_gt h1
      have hn2 : k ≠ k1 := ne_of_gt h1
      rw [btree_insert, if_neg hn1, if_neg hn2, btree_get_cons, btree_get_cons, ih]
      by_cases hq1 : q = k1
      · subst hq1
        rw [if_pos rfl, if_neg (ne_of_lt h1), if_pos rfl]
      · rw [if_neg hq1, if_neg hq1]

theorem btree_get_remove (q k : Decimal) (m : LevelMap) :
    btree_get q (btree_remove k m) = if q = k then none else btree_get q m := by
  induction m with
  | nil =>
    simp [btree_remove, btree_get]
  | cons e t ih =>
    obtain ⟨k1, v1⟩ := e
    by_cases h1 : k1 = k
    · subst h1
      have hf : btree_remove k1 ((k1, v1) :: t) = btree_remove k1 t := by
        simp [btree_remove, List.filter]
      rw [hf, ih, btree_get_cons]
      by_cases hq : q = k1 <;> simp [hq]
    · have hf : btree_remove k ((k1, v1) :: t) = (k1, v1) :: btree_remove k t := by
        simp [btree_remove, List.filter, h1]
      rw [hf, btree_get_cons, btree_get_cons, ih]
      by_cases hq1 : q = k1
      · subst hq1
        rw [if_pos rfl, if_neg h1, if_pos rfl]
      · rw [if_neg hq1, if_neg hq1]

theorem mem_btree_insert {e : Decimal × Decimal} {k v : Decimal} {m : LevelMap}
    (h : e ∈ btree_insert k v m) : e = (k, v) ∨ e ∈ m := by
  induction m with
  | nil =>
    simp [btree_insert] at h
    exact Or.inl h
  | cons e1 t ih =>
    obtain ⟨k1, v1⟩ := e1
    by_cases h1 : k < k1
    · rw [btree_insert, if_pos h1] at h
      simp only [List.mem_cons] at h
      rcases h with h | h | h
      · exact Or.inl h
      · exact Or.inr (by simp [h])
      · exact Or.inr (by simp [h])
    · by_cases h2 : k = k1
      · subst h2
        rw [btree_insert, if_neg h1, if_pos rfl] at h
        simp only [List.mem_cons] at h
        rcases h with h | h
        · exact Or.inl h
        · exact Or.inr (by simp [h])
      · rw [btree_insert, if_neg h1, if_neg h2] at h
        simp only [List.mem_cons] at h
        rcases h with h | h
        · exact Or.inr (by simp [h])
        · rcases ih h with h3 | h3
          · exact Or.inl h3
          · exact Or.inr (by simp [h3])

theorem btree_insert_sorted {m : LevelMap} (k v : Decimal) (h : SortedMap m) :
    SortedMap (btree_insert k v m) := by
  induction m with
  | nil =>
    simp [btree_insert, SortedMap]
  | cons e t ih =>
    obtain ⟨k1, v1⟩ := e
    rw [SortedMap, List.pairwise_cons] at h
    obtain ⟨hrel, htail⟩ := h
    by_cases h1 : k < k1
    · rw [btree_insert, if_pos h1, SortedMap, List.pairwise_cons]
      constructor
      · intro e2 he2
        simp only [List.mem_cons] at he2
        rcases he2 with he2 | he2
        · simp [he2, h1]
        · exact lt_trans h1 (hrel e2 he2)
      · rw [List.pairwise_cons]
        exact ⟨hrel, htail⟩
    · by_cases h2 : k = k1
      · subst h2
        rw [btree_insert, if_neg h1, if_pos rfl, SortedMap, List.pairwise_cons]
        exact ⟨hrel, htail⟩
      · have hk1 : k1 < k := by
          rcases lt_trichotomy k k1 with h3 | h3 | h3
          · exact absurd h3 h1
          · exact absurd h3 h2
          · exact h3
        rw [btree_insert, if_neg h1, if_neg h2, SortedMap, List.pairwise_cons]
        refine ⟨?_, ih htail⟩
        intro e2 he2
        rcases mem_btree_insert he2 with h3 | h3
        · simp [h3, hk1]
        · exact hrel e2 h3

theorem btree_remove_sorted {m : LevelMap} (k : Decimal) (h : SortedMap m) :
    SortedMap (btree_remove k m) :=
  List.Pairwise.sublist (List.filter_sublist m) h

theorem btree_get_mem {q v : Decimal} {m : LevelMap} (h : btree_get q m = some v) :
    (q, v) ∈ m := by
  induction m with
  | nil => simp [btree_get] at h
  | cons e t ih =>
    obtain ⟨k1, v1⟩ := e
    rw [btree_get_cons] at h
    by_cases hq : q = k1
    · rw [if_pos hq] at h
      obtain rfl := hq
      obtain rfl : v1 = v := Option.some.inj h
      simp
    · rw [if_neg hq] at h
      simp [ih h]

theorem sorted_get_tail_none {k v : Decimal} {t : LevelMap}
    (h : SortedMap ((k, v) :: t)) : btree_get k t = none := by
  cases hg : btree_get k t with
  | none => rfl
  | some v2 =>
    have hmem := btree_get_mem hg
    rw [SortedMap, List.pairwise_cons] at h
    exact absurd (h.1 (k, v2) hmem) (lt_irrefl k)

theorem sorted_ext {m m2 : LevelMap} (h1 : SortedMap m) (h2 : SortedMap m2)
    (hq : ∀ q, btree_get q m = btree_get q m2) : m = m2 := by
  induction m generalizing m2 with
  | nil =>
    cases m2 with
    | nil => rfl
    | cons e2 t2 =>
      obtain ⟨k2, v2⟩ := e2
      have := hq k2
      simp [btree_get] at this
  | cons e t ih =>
    obtain ⟨k, v⟩ := e
    cases m2 with
    | nil =>
      have := hq k
      simp [btree_get] at this
    | cons e2 t2 =>
      obtain ⟨k2, v2⟩ := e2
      have hkk : k = k2 := by
        by_contra hne
        have ha := hq k
        have hb := hq k2
        rw [btree_get_cons, btree_get_cons, if_pos rfl, if_neg hne] at ha
        rw [btree_get_cons, btree_get_cons, if_pos rfl,
          if_neg (fun h => hne h.symm)] at hb
        have hmem1 : (k, v) ∈ t2 := btree_get_mem ha.symm
        have hmem2 : (k2, v2) ∈ t := btree_get_mem hb
        rw [SortedMap, List.pairwise_cons] at h1 h2
        have c1 := h1.1 (k2, v2) hmem2
        have c2 := h2.1 (k, v) hmem1
        exact absurd (lt_trans c1 c2) (lt_irrefl k)
      subst hkk
      have hv : v = v2 := by
        have := hq k
        rw [btree_get_cons, btree_get_cons, if_pos rfl, if_pos rfl] at this
        exact Option.some.inj this
      subst hv
      rw [SortedMap, List.pairwise_cons] at h1 h2
      have htails : ∀ q, btree_get q t = btree_get q t2 := by
        intro q
        by_cases hqk : q = k
        · subst hqk
          rw [sorted_get_tail_none (by rw [SortedMap, List.pairwise_cons]; exact h1),
            sorted_get_tail_none (by rw [SortedMap, List.pairwise_cons]; exact h2)]
        · have := hq q
          rwa [btree_get_cons, btree_get_cons, if_neg hqk, if_neg hqk] at this
      rw [ih h1.2 h2.2 htails]

/-! ### Lemmas about the per-side loops -/

theorem snap_apply_levels_sorted (side : String) (L : List PriceLevel) {m : LevelMap}
    (h : SortedMap m) : SortedMap (snap_apply_levels side L m).1 := by
  induction L generalizing m with
  | nil => simpa [snap_apply_levels] using h
  | cons l rest ih =>
    cases hp : parseDecimal l.price with
    | none => simpa [snap_apply_levels, hp] using h
    | some p =>
      cases hs : parseDecimal l.size with
      | none => simpa [snap_apply_levels, hp, hs] using h
      | some s =>
        by_cases h0 : 0 < s
        · simpa [snap_apply_levels, hp, hs, h0] using ih (btree_insert_sorted p s h)
        · simpa [snap_apply_levels, hp, hs, h0] using ih h

theorem snap_apply_levels_pos (side : String) (L : List PriceLevel) {m : LevelMap}
    (h : ∀ e ∈ m, 0 < e.2) : ∀ e ∈ (snap_apply_levels side L m).1, 0 < e.2 := by
  induction L generalizing m with
  | nil => simpa [snap_apply_levels] using h
  | cons l rest ih =>
    cases hp : parseDecimal l.price with
    | none => simpa [snap_apply_levels, hp] using h
    | some p =>
      cases hs : parseDecimal l.size with
      | none => simpa [snap_apply_levels, hp, hs] using h
      | some s =>
        by_cases h0 : 0 < s
        · simp only [snap_apply_levels, hp, hs, if_pos h0]
          refine ih ?_
          intro e he
          rcases mem_btree_insert he with h2 | h2
          · simpa [h2] using h0
          · exact h e h2
        · simpa [snap_apply_levels, hp, hs, h0] using ih h

theorem snap_apply_levels_mem (side : String) (L : List PriceLevel) {m : LevelMap} :
    ∀ e ∈ (snap_apply_levels side L m).1, e ∈ m ∨
      ∃ l ∈ L, parseDecimal l.price = some e.1 ∧ parseDecimal l.size = some e.2 := by
  induction L generalizing m with
  | nil =>
    intro e he
    exact Or.inl (by simpa [snap_apply_levels] using he)
  | cons l rest ih =>
    intro e he
    cases hp : parseDecimal l.price with
    | none =>
      exact Or.inl (by simpa [snap_apply_levels, hp] using he)
    | some p =>
      cases hs : parseDecimal l.size with
      | none =>
        exact Or.inl (by simpa [snap_apply_levels, hp, hs] using he)
      | some s =>
        by_cases h0 : 0 < s
        · rw [snap_apply_levels] at he
          simp only [hp, hs, if_pos h0] at he
          rcases ih e he with h2 | h2
          · rcases mem_btree_insert h2 with h3 | h3
            · refine Or.inr ⟨l, List.mem_cons_self l rest, ?_, ?_⟩ <;> simp [h3, hp, hs]
            · exact Or.inl h3
          · obtain ⟨l2, hl2, hl2p⟩ := h2
            exact Or.inr ⟨l2, List.mem_cons_of_mem l hl2, hl2p⟩
        · rw [snap_apply_levels] at he
          simp only [hp, hs, if_neg h0] at he
          rcases ih e he with h2 | h2
          · exact Or.inl h2
          · obtain ⟨l2, hl2, hl2p⟩ := h2
            exact Or.inr ⟨l2, List.mem_cons_of_mem l hl2, hl2p⟩

theorem snap_apply_levels_error (side : String) {L : List PriceLevel} (m : LevelMap)
    (h : ∃ l ∈ L, ¬ ParsesLevel l) :
    ∃ msg, (snap_apply_levels side L m).2 = some (.InvalidResponse msg) := by
  induction L generalizing m with
  | nil => simp at h
  | cons l rest ih =>
    by_cases hl : ParsesLevel l
    · obtain ⟨p, hp⟩ := Option.isSome_iff_exists.mp hl.1
      obtain ⟨s, hs⟩ := Option.isSome_iff_exists.mp hl.2
      have h2 : ∃ l2 ∈ rest, ¬ ParsesLevel l2 := by
        obtain ⟨l2, hmem, hbad⟩ := h
        rcases List.mem_cons.mp hmem with rfl | hmem2
        · exact absurd hl hbad
        · exact ⟨l2, hmem2, hbad⟩
      simpa [snap_apply_levels, hp, hs] using ih _ h2
    · cases hp : parseDecimal l.price with
      | none =>
        exact ⟨"Invalid " ++ side ++ " price: " ++ l.price, by simp [snap_apply_levels, hp]⟩
      | some p =>
        cases hs : parseDecimal l.size with
        | none =>
          exact ⟨"Invalid " ++ side ++ " size: " ++ l.size, by simp [snap_apply_levels, hp, hs]⟩
        | some s => exact absurd ⟨by simp [hp], by simp [hs]⟩ hl

theorem snap_apply_levels_lookup (side : String) {L : List PriceLevel} {m m1 : LevelMap}
    (h : snap_apply_levels side L m = (m1, none)) (q : Decimal) :
    btree_get q m1 = match last_snapshot_size_at q L with
      | some s => some s
      | none => btree_get q m := by
  induction L generalizing m with
  | nil =>
    rw [snap_apply_levels] at h
    obtain rfl : m = m1 := congrArg Prod.fst h
    simp [last_snapshot_size_at]
  | cons l rest ih =>
    cases hp : parseDecimal l.price with
    | none => simp [snap_apply_levels, hp] at h
    | some p =>
      cases hs : parseDecimal l.size with
      | none => simp [snap_apply_levels, hp, hs] at h
      | some s =>
        rw [snap_apply_levels] at h
        simp only [hp, hs] at h
        rw [ih h, last_snapshot_size_at]
        cases hlast : last_snapshot_size_at q rest with
        | some s2 => simp [hlast]
        | none =>
          simp only [hlast, hp, hs]
          by_cases hpq : p = q ∧ 0 < s
          · obtain ⟨rfl, h0⟩ := hpq
            simp [h0, btree_get_insert]
          · rw [if_neg hpq]
            by_cases h0 : 0 < s
            · have hpq2 : p ≠ q := fun hc => hpq ⟨hc, h0⟩
              have hqp : q ≠ p := fun hc => hpq2 hc.symm
              simp [h0, btree_get_insert, hqp]
            · simp [h0]

theorem upd_apply_levels_sorted (side : String) (L : List PriceLevel) {m : LevelMap}
    (h : SortedMap m) : SortedMap (upd_apply_levels side L m).1 := by
  induction L generalizing m with
  | nil => simpa [upd_apply_levels] using h
  | cons l rest ih =>
    cases hp : parseDecimal l.price with
    | none => simpa [upd_apply_levels, hp] using h
    | some p =>
      cases hs : parseDecimal l.size with
      | none => simpa [upd_apply_levels, hp, hs] using h
      | some s =>
        by_cases h0 : s = 0
        · simpa [upd_apply_levels, hp, hs, h0] using ih (btree_remove_sorted p h)
        · simpa [upd_apply_levels, hp, hs, h0] using ih (btree_insert_sorted p s h)

theorem upd_apply_levels_none_iff (side : String) (L : List PriceLevel) (m : LevelMap) :
    (upd_apply_levels side L m).2 = none ↔ ∀ l ∈ L, ParsesLevel l := by
  induction L generalizing m with
  | nil => simp [upd_apply_levels]
  | cons l rest ih =>
    cases hp : parseDecimal l.price with
    | none =>
      simp only [upd_apply_levels, hp, List.forall_mem_cons]
      simp [ParsesLevel, hp]
    | some p =>
      cases hs : parseDecimal l.size with
      | none =>
        simp only [upd_apply_levels, hp, hs, List.forall_mem_cons]
        simp [ParsesLevel, hp, hs]
      | some s =>
        have hl : ParsesLevel l := ⟨by simp [hp], by simp [hs]⟩
        simp only [upd_apply_levels, hp, hs, List.forall_mem_cons]
        rw [ih]
        simp [hl]

theorem upd_apply_levels_of_parses (side : String) {L : List PriceLevel} (m : LevelMap)
    (h : ∀ l ∈ L, ParsesLevel l) :
    upd_apply_levels side L m = (apply_parsed_delta_levels L m, none) := by
  induction L generalizing m with
  | nil => simp [upd_apply_levels, apply_parsed_delta_levels]
  | cons l rest ih =>
    obtain ⟨p, hp⟩ := Option.isSome_iff_exists.mp (h l (List.mem_cons_self l rest)).1
    obtain ⟨s, hs⟩ := Option.isSome_iff_exists.mp (h l (List.mem_cons_self l rest)).2
    rw [upd_apply_levels, apply_parsed_delta_levels]
    simp only [hp, hs]
    exact ih _ (fun l2 hl2 => h l2 (List.mem_cons_of_mem l hl2))

theorem upd_apply_levels_prefix_error (side : String) {good : List PriceLevel}
    {bad : PriceLevel} (rest : List PriceLevel) (m : LevelMap)
    (hg : ∀ l ∈ good, ParsesLevel l) (hb : ¬ ParsesLevel bad) :
    ∃ msg, upd_apply_levels side (good ++ bad :: rest) m =
      (apply_parsed_delta_levels good m, some (.InvalidResponse msg)) := by
  induction good generalizing m with
  | nil =>
    cases hp : parseDecimal bad.price with
    | none =>
      exact ⟨"Invalid " ++ side ++ " price: " ++ bad.price,
        by simp [upd_apply_levels, hp, apply_parsed_delta_levels]⟩
    | some p =>
      cases hs : parseDecimal bad.size with
      | none =>
        exact ⟨"Invalid " ++ side ++ " size: " ++ bad.size,
          by simp [upd_apply_levels, hp, hs, apply_parsed_delta_levels]⟩
      | some s => exact absurd ⟨by simp [hp], by simp [hs]⟩ hb
  | cons l g ih =>
    obtain ⟨p, hp⟩ := Option.isSome_iff_exists.mp (hg l (List.mem_cons_self l g)).1
    obtain ⟨s, hs⟩ := Option.isSome_iff_exists.mp (hg l (List.mem_cons_self l g)).2
    obtain ⟨msg, hmsg⟩ := ih (if s = 0 then btree_remove p m else btree_insert p s m)
      (fun l2 hl2 => hg l2 (List.mem_cons_of_mem l hl2))
    refine ⟨msg, ?_⟩
    rw [List.cons_append, upd_apply_levels, apply_parsed_delta_levels]
    simp only [hp, hs]
    exact hmsg

theorem upd_apply_levels_lookup (side : String) {L : List PriceLevel} {m m1 : LevelMap}
    (h : upd_apply_levels side L m = (m1, none)) (q : Decimal) :
    btree_get q m1 = match last_delta_size_at q L with
      | some s => if s = 0 then none else some s
      | none => btree_get q m := by
  induction L generalizing m with
  | nil =>
    rw [upd_apply_levels] at h
    obtain rfl : m = m1 := congrArg Prod.fst h
    simp [last_delta_size_at]
  | cons l rest ih =>
    cases hp : parseDecimal l.price with
    | none => simp [upd_apply_levels, hp] at h
    | some p =>
      cases hs : parseDecimal l.size with
      | none => simp [upd_apply_levels, hp, hs] at h
      | some s =>
        rw [upd_apply_levels] at h
        simp only [hp, hs] at h
        rw [ih h, last_delta_size_at]
        cases hlast : last_delta_size_at q rest with
        | some s2 => simp [hlast]
        | none =>
          simp only [hlast, hp, hs]
          by_cases hpq : p = q
          · subst hpq
            by_cases h0 : s = 0
            · simp [h0, btree_get_remove]
            · simp [h0, btree_get_insert]
          · have hqp : q ≠ p := fun hc => hpq hc.symm
            rw [if_neg hpq]
            by_cases h0 : s = 0
            · simp [h0, btree_get_remove, hqp]
            · simp [h0, btree_get_insert, hqp]

theorem snap_apply_levels_error_shape (side : String) {L : List PriceLevel}
    {m m1 : LevelMap} {e : LighterError}
    (h : snap_apply_levels side L m = (m1, some e)) : ∃ msg, e = .InvalidResponse msg := by
  induction L generalizing m with
  | nil => simp [snap_apply_levels] at h
  | cons l rest ih =>
    cases hp : parseDecimal l.price with
    | none =>
      rw [snap_apply_levels] at h
      simp only [hp] at h
      exact ⟨"Invalid " ++ side ++ " price: " ++ l.price,
        (Option.some.inj (congrArg Prod.snd h)).symm⟩
    | some p =>
      cases hs : parseDecimal l.size with
      | none =>
        rw [snap_apply_levels] at h
        simp only [hp, hs] at h
        exact ⟨"Invalid " ++ side ++ " size: " ++ l.size,
          (Option.some.inj (congrArg Prod.snd h)).symm⟩
      | some s =>
        rw [snap_apply_levels] at h
        simp only [hp, hs] at h
        exact ih h

theorem sorted_head_min {m : LevelMap} (hs : SortedMap m) {e0 : Decimal × Decimal}
    (h : m.head? = some e0) : ∀ e ∈ m, e0.1 ≤ e.1 := by
  cases m with
  | nil => simp at h
  | cons a t =>
    obtain rfl : a = e0 := by simpa using h
    intro e he
    rcases List.mem_cons.mp he with rfl | he2
    · exact le_refl _
    · rw [SortedMap, List.pairwise_cons] at hs
      exact le_of_lt (hs.1 e he2)

theorem sorted_getLast_max {m : LevelMap} (hs : SortedMap m) {e0 : Decimal × Decimal}
    (h : m.getLast? = some e0) : ∀ e ∈ m, e.1 ≤ e0.1 := by
  have hrev : m.reverse.head? = some e0 := by rw [List.head?_reverse]; exact h
  have hsrev : m.reverse.Pairwise (fun e1 e2 => e2.1 < e1.1) :=
    List.pairwise_reverse.mpr hs
  intro e he
  have he2 : e ∈ m.reverse := List.mem_reverse.mpr he
  cases hm : m.reverse with
  | nil => rw [hm] at he2; simp at he2
  | cons a t =>
    rw [hm] at hrev he2 hsrev
    obtain rfl : a = e0 := by simpa using hrev
    rcases List.mem_cons.mp he2 with rfl | he3
    · exact le_refl _
    · rw [List.pairwise_cons] at hsrev
      exact le_of_lt (hsrev.1 e he3)

/-! ### Claims -/

/-- C9: for every book state, `total_ask_volume()` equals the exact decimal
sum of the sizes returned by `all_asks()`, and `total_bid_volume()` the sum
over `all_bids()`. -/
theorem C9_total_volume_eq_sum (b : ManagedOrderBook) :
    total_ask_volume b = ((all_asks b).map Prod.snd).sum ∧
    total_bid_volume b = ((all_bids b).map Prod.snd).sum := by
  refine ⟨rfl, ?_⟩
  rw [total_bid_volume, all_bids, List.map_reverse, List.sum_reverse]

/-- C8: on a well-formed book, `spread()` is `none` when either side is
empty, and otherwise equals the best ask price minus the best bid price,
where the best ask is the minimum stored ask price and the best bid the
maximum stored bid price. -/
theorem C8_spread_eq_best_diff (b : ManagedOrderBook) (hs : SortedBook b) :
    (b.asks = [] ∨ b.bids = [] → spread b = none) ∧
    (b.asks ≠ [] → b.bids ≠ [] →
      (best_ask b).isSome = true ∧ (best_bid b).isSome = true ∧
      ∀ pa sa pb sb, best_ask b = some (pa, sa) → best_bid b = some (pb, sb) →
        spread b = some (pa - pb) ∧
        (∀ e ∈ b.asks, pa ≤ e.1) ∧ (∀ e ∈ b.bids, e.1 ≤ pb)) := by
  constructor
  · rintro (h | h) <;> simp [spread, h]
  · intro ha hb
    obtain ⟨ea, hea⟩ := Option.ne_none_iff_exists'.mp
      (fun hc => ha (List.head?_eq_none_iff.mp hc))
    obtain ⟨eb, heb⟩ := Option.ne_none_iff_exists'.mp
      (fun hc => hb (List.getLast?_eq_none_iff.mp hc))
    refine ⟨by simp [best_ask, hea], by simp [best_bid, heb], ?_⟩
    intro pa sa pb sb hpa hpb
    rw [best_ask] at hpa
    rw [best_bid] at hpb
    refine ⟨by simp [spread, hpa, hpb], ?_, ?_⟩
    · exact fun e he => sorted_head_min hs.1 hpa e he
    · exact fun e he => sorted_getLast_max hs.2 hpb e he

/-- C8 witness at a concrete two-level book. -/
theorem C8_spread_witness :
    spread ⟨[(100, 10), (101, 5)], [(98, 20), (99, 15)], 1, 1, 0, "m"⟩ = some 1 := by
  have hsorted : SortedBook ⟨[(100, 10), (101, 5)], [(98, 20), (99, 15)], 1, 1, 0, "m"⟩ := by
    constructor <;> simp [SortedMap] <;> norm_num
  have h := (C8_spread_eq_best_diff _ hsorted).2 (by simp) (by simp)
  have h2 := (h.2.2 100 10 99 15 rfl rfl).1
  rw [h2]
  norm_num

/-- C7: after a successful snapshot, `all_asks()` is sorted strictly
ascending by price, `all_bids()` strictly descending, every returned size is
strictly positive, and every returned level was parsed from some level of
the message. -/
theorem C7_snapshot_sorted_positive (b : ManagedOrderBook) (s : OrderBookSnapshot)
    (h : (apply_snapshot b s).2 = Except.ok ()) :
    ((all_asks (apply_snapshot b s).1).Pairwise (fun e1 e2 => e1.1 < e2.1)) ∧
    ((all_bids (apply_snapshot b s).1).Pairwise (fun e1 e2 => e2.1 < e1.1)) ∧
    (∀ e ∈ all_asks (apply_snapshot b s).1, 0 < e.2) ∧
    (∀ e ∈ all_bids (apply_snapshot b s).1, 0 < e.2) ∧
    (∀ e ∈ all_asks (apply_snapshot b s).1,
      ∃ l ∈ s.asks, parseDecimal l.price = some e.1 ∧ parseDecimal l.size = some e.2) ∧
    (∀ e ∈ all_bids (apply_snapshot b s).1,
      ∃ l ∈ s.bids, parseDecimal l.price = some e.1 ∧ parseDecimal l.size = some e.2) := by
  rcases hA : snap_apply_levels "ask" s.asks [] with ⟨asks1, eA⟩
  cases eA with
  | some e => exfalso; simp [apply_snapshot, hA] at h
  | none =>
    rcases hB : snap_apply_levels "bid" s.bids [] with ⟨bids1, eB⟩
    cases eB with
    | some e => exfalso; simp [apply_snapshot, hA, hB] at h
    | none =>
      have hbook : (apply_snapshot b s).1 =
          { b with asks := asks1, bids := bids1, offset := s.offset, nonce := s.nonce } := by
        simp [apply_snapshot, hA, hB]
      have hsA : SortedMap asks1 := by
        have := snap_apply_levels_sorted "ask" s.asks (m := []) List.Pairwise.nil
        rw [hA] at this
        exact this
      have hsB : SortedMap bids1 := by
        have := snap_apply_levels_sorted "bid" s.bids (m := []) List.Pairwise.nil
        rw [hB] at this
        exact this
      have hpA : ∀ e ∈ asks1, 0 < e.2 := by
        have := snap_apply_levels_pos "ask" s.asks (m := []) (by simp)
        rw [hA] at this
        exact this
      have hpB : ∀ e ∈ bids1, 0 < e.2 := by
        have := snap_apply_levels_pos "bid" s.bids (m := []) (by simp)
        rw [hB] at this
        exact this
      have hmA : ∀ e ∈ asks1,
          ∃ l ∈ s.asks, parseDecimal l.price = some e.1 ∧ parseDecimal l.size = some e.2 := by
        intro e he
        have := snap_apply_levels_mem "ask" s.asks (m := []) e (by rw [hA]; exact he)
        rcases this with h2 | h2
        · simp at h2
        · exact h2
      have hmB : ∀ e ∈ bids1,
          ∃ l ∈ s.bids, parseDecimal l.price = some e.1 ∧ parseDecimal l.size = some e.2 := by
        intro e he
        have := snap_apply_levels_mem "bid" s.bids (m := []) e (by rw [hB]; exact he)
        rcases this with h2 | h2
        · simp at h2
        · exact h2
      rw [hbook]
      refine ⟨by simpa [all_asks] using hsA, ?_, ?_, ?_, ?_, ?_⟩
      · rw [all_bids]
        exact List.pairwise_reverse.mpr hsB
      · intro e he
        exact hpA e (by simpa [all_asks] using he)
      · intro e he
        exact hpB e (by rw [all_bids] at he; exact List.mem_reverse.mp he)
      · intro e he
        exact hmA e (by simpa [all_asks] using he)
      · intro e he
        exact hmB e (by rw [all_bids] at he; exact List.mem_reverse.mp he)

/-- C7 witness at a concrete out-of-order snapshot. -/
theorem C7_snapshot_sorted_witness :
    (all_asks (apply_snapshot (ManagedOrderBook.new "0")
        ⟨[⟨"101", "5"⟩, ⟨"100", "10"⟩, ⟨"102", "0"⟩], [⟨"98", "20"⟩, ⟨"99", "15"⟩],
         100, 12345, 0⟩).1).Pairwise (fun e1 e2 => e1.1 < e2.1) :=
  (C7_snapshot_sorted_positive (ManagedOrderBook.new "0")
    ⟨[⟨"101", "5"⟩, ⟨"100", "10"⟩, ⟨"102", "0"⟩], [⟨"98", "20"⟩, ⟨"99", "15"⟩],
     100, 12345, 0⟩ rfl).1

/-- C1 counterexample: a snapshot with an unparseable ask price fails with a
parse error, but the book is NOT left in its prior state — both sides have
already been cleared. -/
theorem C1_counterexample :
    is_parse_error (apply_snapshot ⟨[(100, 10)], [(99, 5)], 7, 3, 0, "m"⟩
      ⟨[⟨"x", "1"⟩], [], 9, 9, 0⟩).2 = true ∧
    (apply_snapshot (⟨[(100, 10)], [(99, 5)], 7, 3, 0, "m"⟩ : ManagedOrderBook)
      ⟨[⟨"x", "1"⟩], [], 9, 9, 0⟩).1 ≠ ⟨[(100, 10)], [(99, 5)], 7, 3, 0, "m"⟩ := by
  refine ⟨rfl, ?_⟩
  decide

/-- C1 amended: if any price or size of the snapshot fails to parse,
`apply_snapshot` returns a parse error (`InvalidResponse`) and leaves
`offset`, `nonce`, `timestamp` and `market_id` unchanged, but the level
stores have been cleared and repopulated: every level still present was
parsed from the incoming message (prior levels are gone). -/
theorem C1_snapshot_parse_failure (b : ManagedOrderBook) (s : OrderBookSnapshot)
    (h : ∃ l ∈ s.asks ++ s.bids, ¬ ParsesLevel l) :
    is_parse_error (apply_snapshot b s).2 = true ∧
    (apply_snapshot b s).1.offset = b.offset ∧
    (apply_snapshot b s).1.nonce = b.nonce ∧
    (apply_snapshot b s).1.timestamp = b.timestamp ∧
    (apply_snapshot b s).1.market_id = b.market_id ∧
    (∀ e ∈ (apply_snapshot b s).1.asks,
      ∃ l ∈ s.asks, parseDecimal l.price = some e.1 ∧ parseDecimal l.size = some e.2) ∧
    (∀ e ∈ (apply_snapshot b s).1.bids,
      ∃ l ∈ s.bids, parseDecimal l.price = some e.1 ∧ parseDecimal l.size = some e.2) := by
  rcases hA : snap_apply_levels "ask" s.asks [] with ⟨asks1, eA⟩
  have hmA : ∀ e ∈ asks1,
      ∃ l ∈ s.asks, parseDecimal l.price = some e.1 ∧ parseDecimal l.size = some e.2 := by
    intro e he
    have := snap_apply_levels_mem "ask" s.asks (m := []) e (by rw [hA]; exact he)
    rcases this with h2 | h2
    · simp at h2
    · exact h2
  cases eA with
  | some e =>
    obtain ⟨msg, rfl⟩ := snap_apply_levels_error_shape "ask" hA
    have hbook : apply_snapshot b s =
        ({ b with asks := asks1, bids := [] }, .error (.InvalidResponse msg)) := by
      simp [apply_snapshot, hA]
    rw [hbook]
    refine ⟨rfl, rfl, rfl, rfl, rfl, hmA, by simp⟩
  | none =>
    rcases hB : snap_apply_levels "bid" s.bids [] with ⟨bids1, eB⟩
    have hmB : ∀ e ∈ bids1,
        ∃ l ∈ s.bids, parseDecimal l.price = some e.1 ∧ parseDecimal l.size = some e.2 := by
      intro e he
      have := snap_apply_levels_mem "bid" s.bids (m := []) e (by rw [hB]; exact he)
      rcases this with h2 | h2
      · simp at h2
      · exact h2
    cases eB with
    | some e =>
      obtain ⟨msg, rfl⟩ := snap_apply_levels_error_shape "bid" hB
      have hbook : apply_snapshot b s =
          ({ b with asks := asks1, bids := bids1 }, .error (.InvalidResponse msg)) := by
        simp [apply_snapshot, hA, hB]
      rw [hbook]
      exact ⟨rfl, rfl, rfl, rfl, rfl, hmA, hmB⟩
    | none =>
      exfalso
      obtain ⟨l, hmem, hbad⟩ := h
      rcases List.mem_append.mp hmem with hm | hm
      · obtain ⟨msg, hmsg⟩ := snap_apply_levels_error "ask" (m := []) ⟨l, hm, hbad⟩
        rw [hA] at hmsg
        simp at hmsg
      · obtain ⟨msg, hmsg⟩ := snap_apply_levels_error "bid" (m := []) ⟨l, hm, hbad⟩
        rw [hB] at hmsg
        simp at hmsg

/-- C1 witness: the amended behavior at a concrete book and bad snapshot. -/
theorem C1_snapshot_parse_failure_witness :
    is_parse_error (apply_snapshot ⟨[(100, 10)], [(99, 5)], 7, 3, 0, "m"⟩
      ⟨[⟨"x", "1"⟩], [], 9, 9, 0⟩).2 = true ∧
    (apply_snapshot (⟨[(100, 10)], [(99, 5)], 7, 3, 0, "m"⟩ : ManagedOrderBook)
      ⟨[⟨"x", "1"⟩], [], 9, 9, 0⟩).1.offset = 7 := by
  have h := C1_snapshot_parse_failure ⟨[(100, 10)], [(99, 5)], 7, 3, 0, "m"⟩
    ⟨[⟨"x", "1"⟩], [], 9, 9, 0⟩ ⟨⟨"x", "1"⟩, by simp, by decide⟩
  exact ⟨h.1, h.2.1⟩

/-- C2 counterexample: against a never-snapshotted book (`offset == 0`), a
delta is NOT rejected or ignored — it is applied: a level is inserted and
`offset` and `nonce` are advanced, with no error. -/
theorem C2_counterexample :
    apply_update (ManagedOrderBook.new "m") ⟨[⟨"1", "2"⟩], [], 5, 6, 0⟩ =
      (⟨[(1, 2)], [], 5, 6, 0, "m"⟩, Except.ok ()) := by
  rfl

/-- C2 amended: the staleness check only discards updates when the book's
`offset` is strictly positive; with `offset == 0` the delta is applied
normally against the (typically empty) book: the delete/upsert fold runs
and `offset` and `nonce` are set from the message. -/
theorem C2_no_baseline_applies (b : ManagedOrderBook) (u : OrderBookUpdate)
    (hb : b.offset = 0) (hp : ∀ l ∈ u.asks ++ u.bids, ParsesLevel l) :
    apply_update b u =
      ({ b with asks := apply_parsed_delta_levels u.asks b.asks,
                bids := apply_parsed_delta_levels u.bids b.bids,
                offset := u.offset, nonce := u.nonce }, Except.ok ()) := by
  have hstale : ¬ (u.offset ≤ b.offset ∧ 0 < b.offset) := by
    rw [hb]
    rintro ⟨-, hc⟩
    exact absurd hc (lt_irrefl 0)
  rw [apply_update, if_neg hstale,
    upd_apply_levels_of_parses "ask" b.asks (fun l hl => hp l (List.mem_append_left _ hl)),
    upd_apply_levels_of_parses "bid" b.bids (fun l hl => hp l (List.mem_append_right _ hl))]

/-- C2 witness: the amended behavior at a concrete never-snapshotted book. -/
theorem C2_no_baseline_witness :
    apply_update (ManagedOrderBook.new "w") ⟨[⟨"2", "7"⟩], [⟨"1", "4"⟩], 3, 9, 0⟩ =
      (⟨[(2, 7)], [(1, 4)], 3, 9, 0, "w"⟩, Except.ok ()) := by
  have h := C2_no_baseline_applies (ManagedOrderBook.new "w")
    ⟨[⟨"2", "7"⟩], [⟨"1", "4"⟩], 3, 9, 0⟩ rfl (by decide)
  rw [h]
  rfl

/-- C3: the code violates the stored-size-positivity invariant: a delta
level with a strictly negative parsed size is inserted as-is (only an exact
zero deletes), so a successful `apply_update` can leave a level with
negative size in the book. -/
theorem C3_update_inserts_negative_size :
    apply_update ⟨[], [], 1, 1, 0, "m"⟩ ⟨[⟨"1", "-1"⟩], [], 2, 2, 0⟩ =
      (⟨[(1, -1)], [], 2, 2, 0, "m"⟩, Except.ok ()) ∧
    ∃ e ∈ (apply_update (⟨[], [], 1, 1, 0, "m"⟩ : ManagedOrderBook)
      ⟨[⟨"1", "-1"⟩], [], 2, 2, 0⟩).1.asks, e.2 < 0 := by
  refine ⟨rfl, ⟨(1, -1), ?_, by norm_num⟩⟩
  show (1, -1) ∈ [((1 : Decimal), (-1 : Decimal))]
  simp

/-- C10 counterexample: in a snapshot, a later duplicate entry with size
zero is skipped rather than deleting the level, so the EARLIER duplicate
survives: the same messages with and without the earlier duplicate give
different books, contradicting last-entry-wins for snapshots. -/
theorem C10_counterexample :
    (apply_snapshot (ManagedOrderBook.new "m")
      ⟨[⟨"1", "5"⟩, ⟨"1", "0"⟩], [], 1, 1, 0⟩).1.asks = [(1, 5)] ∧
    (apply_snapshot (ManagedOrderBook.new "m")
      ⟨[⟨"1", "0"⟩], [], 1, 1, 0⟩).1.asks = [] := by
  exact ⟨rfl, rfl⟩

/-- C10 amended: in a delta, the last entry at a price determines the final
level (deletion when its size is zero); in a snapshot, entries whose size
is not strictly positive are skipped entirely, so the last entry at a price
with strictly positive size determines the level (absent when none). -/
theorem C10_last_entry_wins (b : ManagedOrderBook) (u : OrderBookUpdate)
    (s : OrderBookSnapshot) (q : Decimal)
    (hu : ∀ l ∈ u.asks ++ u.bids, ParsesLevel l)
    (hstale : ¬ (u.offset ≤ b.offset ∧ 0 < b.offset))
    (hsn : (apply_snapshot b s).2 = Except.ok ()) :
    (btree_get q (apply_update b u).1.asks = match last_delta_size_at q u.asks with
      | some s0 => if s0 = 0 then none else some s0
      | none => btree_get q b.asks) ∧
    (btree_get q (apply_update b u).1.bids = match last_delta_size_at q u.bids with
      | some s0 => if s0 = 0 then none else some s0
      | none => btree_get q b.bids) ∧
    (btree_get q (apply_snapshot b s).1.asks = last_snapshot_size_at q s.asks) ∧
    (btree_get q (apply_snapshot b s).1.bids = last_snapshot_size_at q s.bids) := by
  have heqA := upd_apply_levels_of_parses "ask" b.asks
    (fun l hl => hu l (List.mem_append_left _ hl))
  have heqB := upd_apply_levels_of_parses "bid" b.bids
    (fun l hl => hu l (List.mem_append_right _ hl))
  have hupd : apply_update b u =
      ({ b with asks := apply_parsed_delta_levels u.asks b.asks,
                bids := apply_parsed_delta_levels u.bids b.bids,
                offset := u.offset, nonce := u.nonce }, Except.ok ()) := by
    rw [apply_update, if_neg hstale, heqA, heqB]
  refine ⟨?_, ?_, ?_, ?_⟩
  · rw [hupd]
    exact upd_apply_levels_lookup "ask" heqA q
  · rw [hupd]
    exact upd_apply_levels_lookup "bid" heqB q
  · rcases hA : snap_apply_levels "ask" s.asks [] with ⟨asks1, eA⟩
    cases eA with
    | some e => exfalso; simp [apply_snapshot, hA] at hsn
    | none =>
      rcases hB : snap_apply_levels "bid" s.bids [] with ⟨bids1, eB⟩
      cases eB with
      | some e => exfalso; simp [apply_snapshot, hA, hB] at hsn
      | none =>
        have hbook : (apply_snapshot b s).1 =
            { b with asks := asks1, bids := bids1,
                     offset := s.offset, nonce := s.nonce } := by
          simp [apply_snapshot, hA, hB]
        rw [hbook]
        have := snap_apply_levels_lookup "ask" hA q
        rw [this]
        cases last_snapshot_size_at q s.asks <;> simp [btree_get]
  · rcases hA : snap_apply_levels "ask" s.asks [] with ⟨asks1, eA⟩
    cases eA with
    | some e => exfalso; simp [apply_snapshot, hA] at hsn
    | none =>
      rcases hB : snap_apply_levels "bid" s.bids [] with ⟨bids1, eB⟩
      cases eB with
      | some e => exfalso; simp [apply_snapshot, hA, hB] at hsn
      | none =>
        have hbook : (apply_snapshot b s).1 =
            { b with asks := asks1, bids := bids1,
                     offset := s.offset, nonce := s.nonce } := by
          simp [apply_snapshot, hA, hB]
        rw [hbook]
        have := snap_apply_levels_lookup "bid" hB q
        rw [this]
        cases last_snapshot_size_at q s.bids <;> simp [btree_get]

/-- C10 witness: last-entry-wins at a concrete duplicated delta. -/
theorem C10_last_entry_wins_witness :
    btree_get 1 (apply_update (ManagedOrderBook.new "m")
      ⟨[⟨"1", "5"⟩, ⟨"1", "2"⟩], [], 4, 4, 0⟩).1.asks = some 2 := by
  have h := (C10_last_entry_wins (ManagedOrderBook.new "m")
    ⟨[⟨"1", "5"⟩, ⟨"1", "2"⟩], [], 4, 4, 0⟩ ⟨[], [], 1, 1, 0⟩ 1
    (by decide) (by decide) rfl).1
  rw [h]
  rfl

/-- C4: on a well-formed book, (1) when the book has `offset > 0` and the
incoming `offset` is not greater, `apply_update` succeeds and leaves the
whole state unchanged, and (2) whenever an application succeeds, applying
the exact same delta again succeeds and leaves the state of the first
application unchanged. -/
theorem C4_stale_skip_idempotent (b : ManagedOrderBook) (u : OrderBookUpdate)
    (hs : SortedBook b) :
    (0 < b.offset → u.offset ≤ b.offset → apply_update b u = (b, Except.ok ())) ∧
    ((apply_update b u).2 = Except.ok () →
      apply_update (apply_update b u).1 u = ((apply_update b u).1, Except.ok ())) := by
  constructor
  · intro h0 hle
    rw [apply_update, if_pos ⟨hle, h0⟩]
  · intro hok
    by_cases hstale : u.offset ≤ b.offset ∧ 0 < b.offset
    · have h1 : apply_update b u = (b, Except.ok ()) := by
        rw [apply_update, if_pos hstale]
      rw [h1]
      exact h1
    · rcases hA : upd_apply_levels "ask" u.asks b.asks with ⟨asks1, eA⟩
      cases eA with
      | some e =>
        exfalso
        rw [apply_update, if_neg hstale] at hok
        simp [hA] at hok
      | none =>
        rcases hB : upd_apply_levels "bid" u.bids b.bids with ⟨bids1, eB⟩
        cases eB with
        | some e =>
          exfalso
          rw [apply_update, if_neg hstale] at hok
          simp [hA, hB] at hok
        | none =>
          have h1 : apply_update b u =
              ({ b with asks := asks1, bids := bids1,
                        offset := u.offset, nonce := u.nonce }, Except.ok ()) := by
            rw [apply_update, if_neg hstale]
            simp [hA, hB]
          rw [h1]
          show apply_update
              { b with asks := asks1, bids := bids1,
                       offset := u.offset, nonce := u.nonce } u =
            ({ b with asks := asks1, bids := bids1,
                      offset := u.offset, nonce := u.nonce }, Except.ok ())
          by_cases h0 : 0 < u.offset
          · rw [apply_update, if_pos ⟨le_refl u.offset, h0⟩]
          · have hAp : ∀ l ∈ u.asks, ParsesLevel l :=
              (upd_apply_levels_none_iff "ask" u.asks b.asks).mp (by rw [hA])
            have hBp : ∀ l ∈ u.bids, ParsesLevel l :=
              (upd_apply_levels_none_iff "bid" u.bids b.bids).mp (by rw [hB])
            have hsA1 : SortedMap asks1 := by
              have := upd_apply_levels_sorted "ask" u.asks hs.1
              rw [hA] at this
              exact this
            have hsB1 : SortedMap bids1 := by
              have := upd_apply_levels_sorted "bid" u.bids hs.2
              rw [hB] at this
              exact this
            have heqA2 := upd_apply_levels_of_parses "ask" asks1 hAp
            have heqB2 := upd_apply_levels_of_parses "bid" bids1 hBp
            have hsA2 : SortedMap (apply_parsed_delta_levels u.asks asks1) := by
              have := upd_apply_levels_sorted "ask" u.asks hsA1
              rw [heqA2] at this
              exact this
            have hsB2 : SortedMap (apply_parsed_delta_levels u.bids bids1) := by
              have := upd_apply_levels_sorted "bid" u.bids hsB1
              rw [heqB2] at this
              exact this
            have hextA : apply_parsed_delta_levels u.asks asks1 = asks1 := by
              refine sorted_ext hsA2 hsA1 ?_
              intro q
              have l1 := upd_apply_levels_lookup "ask" hA q
              have l2 := upd_apply_levels_lookup "ask" heqA2 q
              rw [l2, l1]
              cases hlast : last_delta_size_at q u.asks <;> simp [hlast]
            have hextB : apply_parsed_delta_levels u.bids bids1 = bids1 := by
              refine sorted_ext hsB2 hsB1 ?_
              intro q
              have l1 := upd_apply_levels_lookup "bid" hB q
              have l2 := upd_apply_levels_lookup "bid" heqB2 q
              rw [l2, l1]
              cases hlast : last_delta_size_at q u.bids <;> simp [hlast]
            have hstale1 : ¬ (u.offset ≤
                ({ b with asks := asks1, bids := bids1,
                          offset := u.offset, nonce := u.nonce } :
                  ManagedOrderBook).offset ∧
                0 < ({ b with asks := asks1, bids := bids1,
                              offset := u.offset, nonce := u.nonce } :
                  ManagedOrderBook).offset) := fun hc => h0 hc.2
            have heqA2x : upd_apply_levels "ask" u.asks
                ({ b with asks := asks1, bids := bids1,
                          offset := u.offset, nonce := u.nonce } :
                  ManagedOrderBook).asks =
                (apply_parsed_delta_levels u.asks asks1, none) := heqA2
            have heqB2x : upd_apply_levels "bid" u.bids
                ({ b with asks := asks1, bids := bids1,
                          offset := u.offset, nonce := u.nonce } :
                  ManagedOrderBook).bids =
                (apply_parsed_delta_levels u.bids bids1, none) := heqB2
            rw [apply_update, if_neg hstale1, heqA2x, heqB2x, hextA, hextB]

/-- C4 witness: a concrete stale delta is skipped with no error. -/
theorem C4_stale_skip_witness :
    apply_update ⟨[(1, 2)], [], 5, 5, 0, "m"⟩ ⟨[⟨"1", "9"⟩], [], 5, 7, 0⟩ =
      (⟨[(1, 2)], [], 5, 5, 0, "m"⟩, Except.ok ()) :=
  (C4_stale_skip_idempotent ⟨[(1, 2)], [], 5, 5, 0, "m"⟩ ⟨[⟨"1", "9"⟩], [], 5, 7, 0⟩
    ⟨by simp [SortedMap], by simp [SortedMap]⟩).1 (by decide) (le_refl 5)

/-- C5: a non-stale delta whose strings all parse succeeds, and afterwards
the stored book's `offset`, `nonce` and `timestamp` equal the incoming
message's values (`timestamp` is set by the `update/order_book` handler
from the message envelope immediately before `apply_update` runs). -/
theorem C5_update_advances_fields (ts : Nat) (u : OrderBookUpdate) (b : ManagedOrderBook)
    (hstale : ¬ (u.offset ≤ b.offset ∧ 0 < b.offset))
    (hp : ∀ l ∈ u.asks ++ u.bids, ParsesLevel l) :
    (handle_update_message ts u b).2 = Except.ok () ∧
    (handle_update_message ts u b).1.offset = u.offset ∧
    (handle_update_message ts u b).1.nonce = u.nonce ∧
    (handle_update_message ts u b).1.timestamp = ts := by
  have hstale2 : ¬ (u.offset ≤ ({ b with timestamp := ts } : ManagedOrderBook).offset ∧
      0 < ({ b with timestamp := ts } : ManagedOrderBook).offset) := hstale
  rw [handle_update_message, apply_update, if_neg hstale2,
    upd_apply_levels_of_parses "ask" _ (fun l hl => hp l (List.mem_append_left _ hl)),
    upd_apply_levels_of_parses "bid" _ (fun l hl => hp l (List.mem_append_right _ hl))]
  exact ⟨rfl, rfl, rfl, rfl⟩

/-- C5 witness at a concrete envelope timestamp and delta. -/
theorem C5_update_advances_witness :
    (handle_update_message 42 ⟨[⟨"1", "2"⟩], [], 5, 6, 0⟩ (ManagedOrderBook.new "m")).2
      = Except.ok () ∧
    (handle_update_message 42 ⟨[⟨"1", "2"⟩], [], 5, 6, 0⟩
      (ManagedOrderBook.new "m")).1.offset = 5 ∧
    (handle_update_message 42 ⟨[⟨"1", "2"⟩], [], 5, 6, 0⟩
      (ManagedOrderBook.new "m")).1.nonce = 6 ∧
    (handle_update_message 42 ⟨[⟨"1", "2"⟩], [], 5, 6, 0⟩
      (ManagedOrderBook.new "m")).1.timestamp = 42 :=
  C5_update_advances_fields 42 ⟨[⟨"1", "2"⟩], [], 5, 6, 0⟩ (ManagedOrderBook.new "m")
    (by decide) (by decide)

/-- C6: a non-stale delta with a failing entry fails with a parse error
(`InvalidResponse`); every mutation from the entries processed before the
failing one is retained (not rolled back) and `offset`, `nonce`,
`timestamp` and `market_id` keep their prior values. The failing entry is
the first non-parsing one: `good` is the parsed prefix of the combined
ask-then-bid entry sequence, `bad` the first failing entry. -/
theorem C6_parse_failure_retention (b : ManagedOrderBook) (u : OrderBookUpdate)
    (good : List PriceLevel) (bad : PriceLevel) (rest : List PriceLevel)
    (hstale : ¬ (u.offset ≤ b.offset ∧ 0 < b.offset))
    (hsplit : u.asks ++ u.bids = good ++ bad :: rest)
    (hgood : ∀ l ∈ good, ParsesLevel l) (hbad : ¬ ParsesLevel bad) :
    is_parse_error (apply_update b u).2 = true ∧
    (apply_update b u).1 =
      { b with asks := apply_parsed_delta_levels (good.take u.asks.length) b.asks,
               bids := apply_parsed_delta_levels (good.drop u.asks.length) b.bids } := by
  by_cases hlen : good.length < u.asks.length
  · -- the failing entry is among the asks
    obtain ⟨k, hk⟩ : ∃ k, u.asks.length - good.length = k + 1 :=
      ⟨u.asks.length - good.length - 1, by omega⟩
    have h1 : u.asks = good ++ bad :: rest.take k := by
      have h2 := List.take_left u.asks u.bids
      rw [hsplit, List.take_append_eq_append_take,
        List.take_of_length_le (le_of_lt hlen), hk] at h2
      simpa [List.take_succ_cons] using h2.symm
    obtain ⟨msg, hmsg⟩ :=
      upd_apply_levels_prefix_error "ask" (rest.take k) b.asks hgood hbad
    rw [← h1] at hmsg
    have happ : apply_update b u =
        ({ b with asks := apply_parsed_delta_levels good b.asks },
          .error (.InvalidResponse msg)) := by
      rw [apply_update, if_neg hstale, hmsg]
    refine ⟨by rw [happ]; rfl, ?_⟩
    rw [happ, List.take_of_length_le (le_of_lt hlen),
      List.drop_eq_nil_of_le (le_of_lt hlen)]
    rfl
  · -- the asks all parse; the failing entry is among the bids
    have hle : u.asks.length ≤ good.length := le_of_not_lt hlen
    have h1 : good.take u.asks.length = u.asks := by
      have h2 := List.take_left u.asks u.bids
      rw [hsplit, List.take_append_of_le_length hle] at h2
      exact h2
    have h2 : u.bids = good.drop u.asks.length ++ bad :: rest := by
      have h3 := List.drop_left u.asks u.bids
      rw [hsplit, List.drop_append_eq_append_drop,
        Nat.sub_eq_zero_of_le hle, List.drop_zero] at h3
      exact h3.symm
    have hAp : ∀ l ∈ u.asks, ParsesLevel l := by
      intro l hl
      rw [← h1] at hl
      exact hgood l (List.take_subset _ _ hl)
    have heqA := upd_apply_levels_of_parses "ask" b.asks hAp
    obtain ⟨msg, hmsg⟩ := upd_apply_levels_prefix_error "bid" rest b.bids
      (fun l hl => hgood l (List.drop_subset _ _ hl)) hbad
    rw [← h2] at hmsg
    have happ : apply_update b u =
        ({ b with asks := apply_parsed_delta_levels u.asks b.asks,
                  bids := apply_parsed_delta_levels
                    (good.drop u.asks.length) b.bids },
          .error (.InvalidResponse msg)) := by
      rw [apply_update, if_neg hstale, heqA, hmsg]
    refine ⟨by rw [happ]; rfl, ?_⟩
    rw [happ, h1]

/-- C6 witness: retention of the parsed prefix at a concrete failing delta. -/
theorem C6_parse_failure_witness :
    is_parse_error (apply_update ⟨[], [], 1, 1, 0, "m"⟩
      ⟨[⟨"1", "2"⟩, ⟨"x", "3"⟩], [⟨"4", "5"⟩], 2, 2, 0⟩).2 = true ∧
    (apply_update (⟨[], [], 1, 1, 0, "m"⟩ : ManagedOrderBook)
      ⟨[⟨"1", "2"⟩, ⟨"x", "3"⟩], [⟨"4", "5"⟩], 2, 2, 0⟩).1 =
      ⟨[(1, 2)], [], 1, 1, 0, "m"⟩ := by
  have h := C6_parse_failure_retention ⟨[], [], 1, 1, 0, "m"⟩
    ⟨[⟨"1", "2"⟩, ⟨"x", "3"⟩], [⟨"4", "5"⟩], 2, 2, 0⟩
    [⟨"1", "2"⟩] ⟨"x", "3"⟩ [⟨"4", "5"⟩]
    (by decide) rfl (by decide) (by decide)
  refine ⟨h.1, ?_⟩
  rw [h.2]
  rfl

end Lighter
